import Mathlib

/-!
Verification of the secmet region hierarchy and the prodigal output parser.

The `Region`/`Cluster`/`SuperCluster`/`SubRegion`/`CDSFeature` classes and the
flat-file codec are exercised by the repository only through their test suite,
so their behaviour is modelled here from the specification (each such
definition carries a doc comment starting with `Modelled from the spec:`).
The prodigal line parser is embedded directly from
`src/antismash/detection/genefinding/run_prodigal.py`.
-/

/-- Modelled from the spec: the strand of a coordinate span, one of
forward, reverse or unknown (the source classes are absent from src). -/
inductive Strand where
  | fwd
  | rev
  | unknown
deriving DecidableEq, Repr

/-- Modelled from the spec: an immutable coordinate span
`{start, end (exclusive), strand}` (the `FeatureLocation` class is absent
from src).  The field `end` is spelt `end_` because `end` is reserved. -/
structure FeatureLocation where
  start : Int
  end_ : Int
  strand : Strand := .unknown
deriving DecidableEq, Repr

/-- Modelled from the spec: span A contains span B iff
`A.start ≤ B.start and B.end ≤ A.end`. -/
def FeatureLocation.contains (a b : FeatureLocation) : Bool :=
  decide (a.start ≤ b.start) && decide (b.end_ ≤ a.end_)

/-- Modelled from the spec: the span invariant `end > start`. -/
def FeatureLocation.valid (a : FeatureLocation) : Bool :=
  decide (a.start < a.end_)

/-- Modelled from the spec: strand of a union span, `self.strand` when the two
strands agree and unknown otherwise. -/
def strandUnion (a b : Strand) : Strand :=
  if a = b then a else .unknown

/-- Modelled from the spec: union of two spans, min start, max end,
strand kept only when equal. -/
def FeatureLocation.union (a b : FeatureLocation) : FeatureLocation :=
  ⟨min a.start b.start, max a.end_ b.end_, strandUnion a.strand b.strand⟩

/-- Modelled from the spec: translate a span by subtracting an offset from
start and end (used for export). -/
def FeatureLocation.translate (a : FeatureLocation) (off : Int) : FeatureLocation :=
  ⟨a.start - off, a.end_ - off, a.strand⟩

/-- Accumulator step for the union envelope of a list of spans. -/
def unionOpt : Option FeatureLocation → FeatureLocation → Option FeatureLocation
  | none, x => some x
  | some a, x => some (a.union x)

/-- Union envelope of a list of spans, `none` for the empty list. -/
def envelope? (l : List FeatureLocation) : Option FeatureLocation :=
  l.foldl unionOpt none

/-- Union envelope of a list of spans with a default for the empty list. -/
def envelope (l : List FeatureLocation) : FeatureLocation :=
  (envelope? l).getD ⟨0, 0, .unknown⟩

/-- Modelled from the spec: a sub-annotation (`CDSFeature`) with its span, its
locus tag and the non-owning back-reference to the accepting region, held as a
numeric handle (the `CDSFeature` class is absent from src). -/
structure CDSFeature where
  location : FeatureLocation
  locus_tag : String
  region : Option Nat := none
deriving DecidableEq, Repr

/-- Modelled from the spec: a leaf candidate (`Cluster`) with detection
metadata and its own mutable list of attached sub-annotations (the `Cluster`
class is absent from src). -/
structure Cluster where
  location : FeatureLocation
  neighbourhood_location : FeatureLocation
  tool : String
  product : String
  cutoff : Int
  neighbourhood_range : Int
  detection_rule : String
  cds_children : List CDSFeature := []
deriving DecidableEq, Repr

/-- Modelled from the spec: the closed set of aggregation-node kinds. -/
inductive SuperClusterKind where
  | SINGLE
  | NEIGHBOURING
deriving DecidableEq, Repr

/-- Modelled from the spec: an aggregation node (`SuperCluster`), a typed
grouping of leaf candidates whose span and children are derived views (the
`SuperCluster` class is absent from src). -/
structure SuperCluster where
  kind : SuperClusterKind
  clusters : List Cluster
deriving DecidableEq, Repr

/-- Modelled from the spec: the derived location of an aggregation node is the
union envelope of its members' locations, recomputed on demand. -/
def SuperCluster.location (sc : SuperCluster) : FeatureLocation :=
  envelope (sc.clusters.map Cluster.location)

/-- Modelled from the spec: the derived cds_children of an aggregation node is
the union of its members' cds_children, recomputed on demand. -/
def SuperCluster.cds_children (sc : SuperCluster) : List CDSFeature :=
  (sc.clusters.flatMap Cluster.cds_children).dedup

/-- Modelled from the spec: validating construction of an aggregation node,
`members` non-empty and `kind` consistent with member count. -/
def mkSuperCluster (kind : SuperClusterKind) (clusters : List Cluster) :
    Except String SuperCluster :=
  if clusters.isEmpty then .error "SuperCluster requires at least one cluster"
  else if kind = .SINGLE && clusters.length != 1 then
    .error "SINGLE kind requires exactly one cluster"
  else if kind != .SINGLE && clusters.length < 2 then
    .error "grouped kinds require two or more clusters"
  else .ok ⟨kind, clusters⟩

/-- Modelled from the spec: an independent region candidate (`SubRegion`) with
an optional probability, carried through unchanged (the `SubRegion` class is
absent from src). -/
structure SubRegion where
  location : FeatureLocation
  tool : String
  probability : Option Rat := none
  cds_children : List CDSFeature := []
deriving DecidableEq, Repr

/-- Modelled from the spec: a top-level region, with its fixed child
collections, a mutable sub-annotation list and a numeric identity used for
back-references (the `Region` class is absent from src). -/
structure Region where
  id : Nat
  superclusters : List SuperCluster
  subregions : List SubRegion
  cds_children : List CDSFeature := []
deriving DecidableEq, Repr

/-- Modelled from the spec: the closed tagged-variant set of region children,
used to express the construction-time kind check. -/
inductive RegionChild where
  | superC (sc : SuperCluster)
  | subR (sr : SubRegion)
deriving DecidableEq, Repr

/-- Kind test for a region child offered as an aggregation node. -/
def RegionChild.isSuper : RegionChild → Bool
  | .superC _ => true
  | .subR _ => false

/-- Kind test for a region child offered as an independent candidate. -/
def RegionChild.isSub : RegionChild → Bool
  | .superC _ => false
  | .subR _ => true

/-- Extract the aggregation nodes of a list of region children. -/
def getSupers (l : List RegionChild) : List SuperCluster :=
  l.filterMap fun c => match c with
    | .superC sc => some sc
    | .subR _ => none

/-- Extract the independent candidates of a list of region children. -/
def getSubs (l : List RegionChild) : List SubRegion :=
  l.filterMap fun c => match c with
    | .superC _ => none
    | .subR sr => some sr

/-- Modelled from the spec: validating construction of a region.  Every
element offered as an aggregation node must genuinely be one (and likewise
for independent candidates) and the two collections cannot both be empty;
a violation is a hard construction error and no object is produced. -/
def mkRegion (n : Nat) (superclusters subregions : List RegionChild) :
    Except String Region :=
  if !superclusters.all RegionChild.isSuper then
    .error "AssertionError"
  else if !subregions.all RegionChild.isSub then
    .error "AssertionError"
  else if superclusters.isEmpty && subregions.isEmpty then
    .error "Region requires at least one supercluster or subregion"
  else .ok ⟨n, getSupers superclusters, getSubs subregions, []⟩

/-- The locations of all immediate children of a region. -/
def Region.childLocations (r : Region) : List FeatureLocation :=
  r.superclusters.map SuperCluster.location ++ r.subregions.map SubRegion.location

/-- Modelled from the spec: the derived location of a region is the union
envelope of all its superclusters' and subregions' locations. -/
def Region.location (r : Region) : FeatureLocation :=
  envelope r.childLocations

/-- Modelled from the spec: the derived products of a region, the sorted
de-duplicated product labels of all leaf candidates reachable through its
superclusters. -/
def Region.products (r : Region) : List String :=
  List.insertionSort (· ≤ ·) ((r.superclusters.flatMap SuperCluster.clusters).map Cluster.product).dedup

/-- Modelled from the spec: the derived probabilities of a region, the
non-null probabilities of its subregions in subregion order. -/
def Region.probabilities (r : Region) : List Rat :=
  r.subregions.filterMap SubRegion.probability

/-- Modelled from the spec: `is_contained_by` delegates to span containment
against the container's derived location. -/
def CDSFeature.is_contained_by (cds : CDSFeature) (r : Region) : Bool :=
  r.location.contains cds.location

/-- Modelled from the spec: a leaf candidate appends a sub-annotation exactly
when its own location contains the sub-annotation's location. -/
def Cluster.addCds (c : Cluster) (cds : CDSFeature) : Cluster :=
  if c.location.contains cds.location then
    { c with cds_children := c.cds_children ++ [cds] }
  else c

/-- Modelled from the spec: when an aggregation node's derived location
contains the sub-annotation, the sub-annotation is offered to every member
leaf, each of which attaches it only on its own containment check. -/
def SuperCluster.addCds (sc : SuperCluster) (cds : CDSFeature) : SuperCluster :=
  if sc.location.contains cds.location then
    { sc with clusters := sc.clusters.map (Cluster.addCds · cds) }
  else sc

/-- Modelled from the spec: an independent candidate appends the
sub-annotation only if its own location contains it. -/
def SubRegion.addCds (sr : SubRegion) (cds : CDSFeature) : SubRegion :=
  if sr.location.contains cds.location then
    { sr with cds_children := sr.cds_children ++ [cds] }
  else sr

/-- Modelled from the spec: containment propagation.  The envelope
containment precondition is a hard error when violated; otherwise the
sub-annotation is offered to every child, appended to the region exactly
once, and its back-reference is set to this region. -/
def Region.addCds (r : Region) (cds : CDSFeature) :
    Except String (Region × CDSFeature) :=
  if r.location.contains cds.location then
    let c' : CDSFeature := { cds with region := some r.id }
    .ok ({ r with
            superclusters := r.superclusters.map (SuperCluster.addCds · c'),
            subregions := r.subregions.map (SubRegion.addCds · c'),
            cds_children := r.cds_children ++ [c'] }, c')
  else .error "AssertionError"

/-- The attributes of a region that the test suite attempts to assign. -/
inductive RegionAttr where
  | superclustersAttr
  | subregionsAttr
  | cdsChildrenAttr
deriving DecidableEq, Repr

/-- Modelled from the spec: `superclusters` and `subregions` have no setter
and `cds_children` cannot be replaced as a whole collection, so any attempted
attribute assignment fails with an AttributeError. -/
def Region.setAttr (_r : Region) (_a : RegionAttr) : Except String Region :=
  .error "AttributeError: cannot set attribute"

/-- Modelled from the spec: ordering of sibling clusters in the emitted
record, ascending by start coordinate. -/
def clusterLe (a b : Cluster) : Prop :=
  a.location.start ≤ b.location.start

instance : DecidableRel clusterLe := fun _ _ =>
  inferInstanceAs (Decidable (_ ≤ _))

/-- Modelled from the spec: ordering of sibling subregions in the emitted
record, ascending by start coordinate. -/
def subLe (a b : SubRegion) : Prop :=
  a.location.start ≤ b.location.start

instance : DecidableRel subLe := fun _ _ =>
  inferInstanceAs (Decidable (_ ≤ _))

/-- Modelled from the spec: ordering of sibling supercluster encodings in the
emitted record, ascending by the start of their derived envelope. -/
def superEncLe (a b : SuperClusterKind × List Cluster) : Prop :=
  (envelope (a.2.map Cluster.location)).start ≤ (envelope (b.2.map Cluster.location)).start

instance : DecidableRel superEncLe := fun _ _ =>
  inferInstanceAs (Decidable (_ ≤ _))

/-- Modelled from the spec: ordering of sibling sub-annotation encodings in
the emitted record, ascending by start coordinate. -/
def cdsEncLe (a b : FeatureLocation × String) : Prop :=
  a.1.start ≤ b.1.start

instance : DecidableRel cdsEncLe := fun _ _ =>
  inferInstanceAs (Decidable (_ ≤ _))

/-- Modelled from the spec: one emitted flat-file record, holding exactly the
qualifier data the codec writes for a region: the translated region span, per
aggregation node its kind and its member leaf data, per independent candidate
its span, tool and probability, and per sub-annotation its span and locus
tag (the codec is absent from src). -/
structure GBRecord where
  regionLoc : FeatureLocation
  supers : List (SuperClusterKind × List Cluster)
  subs : List SubRegion
  cdss : List (FeatureLocation × String)
deriving DecidableEq, Repr

/-- Modelled from the spec: the qualifier payload written for one leaf
candidate, all spans translated by the record start offset and no attached
children (those are written as their own features). -/
def encodeCluster (off : Int) (c : Cluster) : Cluster :=
  { c with location := c.location.translate off,
           neighbourhood_location := c.neighbourhood_location.translate off,
           cds_children := [] }

/-- Modelled from the spec: the qualifier payload written for one independent
candidate, its span translated by the record start offset. -/
def encodeSub (off : Int) (s : SubRegion) : SubRegion :=
  { s with location := s.location.translate off, cds_children := [] }

/-- Modelled from the spec: `write(region, target, record_start_offset)`
translates every span by the record start offset and emits the qualifier
data needed to reconstruct the hierarchy, sibling features ordered
ascending by translated start coordinate. -/
def writeRegion (r : Region) (off : Int) : GBRecord :=
  { regionLoc := r.location.translate off,
    supers := List.insertionSort superEncLe
      (r.superclusters.map fun sc =>
        (sc.kind, List.insertionSort clusterLe (sc.clusters.map (encodeCluster off)))),
    subs := List.insertionSort subLe (r.subregions.map (encodeSub off)),
    cdss := List.insertionSort cdsEncLe
      (r.cds_children.map fun c => (c.location.translate off, c.locus_tag)) }

/-- Modelled from the spec: the format validation performed at parse time:
every span satisfies `end > start`, every aggregation node has at least one
member and the region has at least one child. -/
def GBRecord.validSpans (g : GBRecord) : Bool :=
  g.supers.all (fun p =>
    !p.2.isEmpty && p.2.all fun c => c.location.valid && c.neighbourhood_location.valid)
  && g.subs.all (fun s => s.location.valid)
  && g.cdss.all (fun p => p.1.valid)
  && !(g.supers.isEmpty && g.subs.isEmpty)

/-- Modelled from the spec: `parse` rebuilds one region per record from the
qualifier data, spans left in the record's local coordinate system, and
rejects the whole record on a format error. -/
def parseRegion (g : GBRecord) : Except String Region :=
  if g.validSpans then
    .ok ⟨0,
         g.supers.map fun p => ⟨p.1, p.2⟩,
         g.subs,
         g.cdss.map fun p => { location := p.1, locus_tag := p.2, region := none }⟩
  else .error "format error"

/-- Structural well-formedness of a region, exactly what the codec's parse
validation requires of the written record: at least one child, non-empty
aggregation nodes and every span valid. -/
def Region.WF (r : Region) : Bool :=
  !(r.superclusters.isEmpty && r.subregions.isEmpty)
  && r.superclusters.all (fun sc =>
      !sc.clusters.isEmpty
      && sc.clusters.all fun c => c.location.valid && c.neighbourhood_location.valid)
  && r.subregions.all (fun s => s.location.valid)
  && r.cds_children.all (fun c => c.location.valid)

/-- A gene predicted by prodigal, embedded from `run_prodigal`: the 0-based
half-open span handed to `FeatureLocation(start-1, end, strand)`, the strand,
the gene name and the generated locus tag.  Strings are carried as character
lists. -/
structure ProdigalFeature where
  start : Int
  end_ : Int
  strand : Int
  name : List Char
  locus_tag : List Char
deriving DecidableEq, Repr

/-- Embedded from `run_prodigal` lines 50-67: the feature built from one
accepted output line, after integer conversion of start and end succeeded.
A strand symbol other than `+` maps to -1; when start exceeds end the
coordinates are swapped and the strand is forced to -1; the location is
`(start-1, end)` after the swap. -/
def mkProdigalFeature (recordIdx : Nat) (name : List Char) (st en : Int)
    (sym : List Char) : ProdigalFeature :=
  let strand0 : Int := if sym = ['+'] then 1 else -1
  let strand : Int := if st > en then -1 else strand0
  let lo : Int := if st > en then en else st
  let hi : Int := if st > en then st else en
  { start := lo - 1, end_ := hi, strand := strand, name := name,
    locus_tag := ['c', 't', 'g'] ++ Nat.toDigits 10 recordIdx ++ '_' :: name }

/-- Embedded from `run_prodigal` line 48: Python `str.split("_")`, splitting
on every underscore and keeping empty fields. -/
def splitUnderscore (l : List Char) : List (List Char) :=
  l.foldr (fun c acc =>
    match acc with
    | [] => [[c]]
    | cur :: rest => if c = '_' then [] :: cur :: rest else (c :: cur) :: rest) [[]]

/-- Embedded from `run_prodigal` line 48: Python `str.rstrip()`, dropping
trailing whitespace. -/
def trimRightChars (l : List Char) : List Char :=
  (l.reverse.dropWhile Char.isWhitespace).reverse

/-- Digit-string to number conversion used by the embedded Python `int`. -/
def digitsToNat? (l : List Char) : Option Nat :=
  if l.isEmpty || !l.all Char.isDigit then none
  else some (l.foldl (fun n c => n * 10 + (c.toNat - 48)) 0)

/-- Embedded from `run_prodigal` lines 51-52: Python `int(...)` on a field,
an optional sign followed by decimal digits; anything else raises the
ValueError the code catches. -/
def parseInt? (l : List Char) : Option Int :=
  match l with
  | '-' :: rest => (digitsToNat? rest).map fun n => -(n : Int)
  | '+' :: rest => (digitsToNat? rest).map fun n => (n : Int)
  | _ => (digitsToNat? l).map fun n => (n : Int)

/-- Whether the pattern is a prefix of the character list. -/
def listStartsWith : List Char → List Char → Bool
  | [], _ => true
  | _ :: _, [] => false
  | p :: ps, c :: cs => p = c && listStartsWith ps cs

/-- Whether the pattern occurs anywhere in the character list. -/
def containsSeq (pat : List Char) : List Char → Bool
  | [] => listStartsWith pat []
  | c :: cs => listStartsWith pat (c :: cs) || containsSeq pat cs

/-- Embedded from `run_prodigal` line 41: `err.find('Error') > -1`. -/
def hasErrorText (s : List Char) : Bool :=
  containsSeq ['E', 'r', 'r', 'o', 'r'] s

/-- Embedded from `run_prodigal` lines 44-68: processing of one line of the
prodigal result file.  A line not starting with `>` is skipped; a `>` line is
split on underscores after stripping trailing whitespace; with exactly four
fields and integer start and end a feature is produced, a failed integer
conversion is logged and skipped (`Except.ok none`); a field count other than
four raises an uncaught ValueError from tuple unpacking, because the
unpacking sits outside the try block (`Except.error`). -/
def parseProdigalLine (recordIdx : Nat) (line : List Char) :
    Except String (Option ProdigalFeature) :=
  match line with
  | '>' :: rest =>
    match splitUnderscore (trimRightChars rest) with
    | [name, s, e, sym] =>
      match parseInt? s, parseInt? e with
      | some st, some en => .ok (some (mkProdigalFeature recordIdx name st en sym))
      | _, _ => .ok none
    | _ => .error "ValueError"
  | _ => .ok none

/-- Embedded from `run_prodigal` lines 40-68: when the tool's stderr contains
`Error` the function logs and returns with no features appended; otherwise
every line of the result file is processed in order and the accepted features
are appended.  An uncaught line error aborts the whole call. -/
def run_prodigal (stderrChars : List Char) (lines : List (List Char))
    (recordIdx : Nat) : Except String (List ProdigalFeature) :=
  if hasErrorText stderrChars then .ok []
  else
    lines.foldlM (fun acc line => do
      match ← parseProdigalLine recordIdx line with
      | some f => pure (acc ++ [f])
      | none => pure acc) []

/-! ### Test fixtures mirroring `test_region.py` -/

/-- Fixture mirroring `create_cluster` in the test suite. -/
def createCluster (a b : Int) (product : String) : Cluster :=
  ⟨⟨a, b, .unknown⟩, ⟨a, b, .unknown⟩, "testing", product, 1, 0, "some rule text", []⟩

/-- Fixture cluster spanning 0-10 with product a. -/
def fixCluster : Cluster := createCluster 0 10 "a"

/-- Fixture SINGLE supercluster wrapping the 0-10 cluster. -/
def fixSuper : SuperCluster := ⟨.SINGLE, [fixCluster]⟩

/-- Fixture subregion spanning 0-10. -/
def fixSub : SubRegion := ⟨⟨0, 10, .unknown⟩, "testtool", none, []⟩

/-- Fixture region wrapping the fixture supercluster and subregion. -/
def fixRegion : Region := ⟨0, [fixSuper], [fixSub], []⟩

/-- Fixture sub-annotation spanning 0-10. -/
def fixCds : CDSFeature := ⟨⟨0, 10, .fwd⟩, "test_cds", none⟩

/-- Fixture sub-annotation spanning 50-60, outside the fixture region. -/
def fixCds50 : CDSFeature := ⟨⟨50, 60, .fwd⟩, "test_cds", none⟩

/-- Fixture supercluster with members 0-10 and 20-30, leaving a gap. -/
def gapSuper : SuperCluster :=
  ⟨.NEIGHBOURING, [createCluster 0 10 "a", createCluster 20 30 "b"]⟩

/-- Fixture region whose only child is the gapped supercluster. -/
def gapRegion : Region := ⟨1, [gapSuper], [], []⟩

/-- Fixture sub-annotation falling in the gap between the two leaves. -/
def gapCds : CDSFeature := ⟨⟨12, 15, .fwd⟩, "gap_cds", none⟩

/-- Fixture supercluster with members 0-5 and 15-20, leaving a gap. -/
def frameSuper : SuperCluster :=
  ⟨.NEIGHBOURING, [createCluster 0 5 "a", createCluster 15 20 "b"]⟩

/-- Fixture subregion spanning 30-40, away from the second gapped
supercluster. -/
def frameSubFar : SubRegion := ⟨⟨30, 40, .unknown⟩, "testtool", none, []⟩

/-- Fixture region wrapping the second gapped supercluster and the distant
subregion. -/
def frameRegion : Region := ⟨2, [frameSuper], [frameSubFar], []⟩

/-- Fixture sub-annotation in the gap of the second gapped supercluster. -/
def frameCds : CDSFeature := ⟨⟨6, 8, .fwd⟩, "frame_cds", none⟩

/-- The gap fixture sub-annotation after acceptance by the gap region. -/
def gapCds' : CDSFeature := ⟨⟨12, 15, .fwd⟩, "gap_cds", some 1⟩

/-- The frame fixture sub-annotation after acceptance by the frame region. -/
def frameCds' : CDSFeature := ⟨⟨6, 8, .fwd⟩, "frame_cds", some 2⟩

/-- Fixture mirroring the round-trip test: two clusters grouped into one
NEIGHBOURING supercluster plus one subregion with probability 0.7. -/
def wRegion : Region :=
  ⟨3, [⟨.NEIGHBOURING, [createCluster 3 20 "prodA", createCluster 25 41 "prodB"]⟩],
   [⟨⟨35, 71, .unknown⟩, "test", some (mkRat 7 10), []⟩], []⟩

/-- Fixture region whose subregions are not in ascending start order. -/
def cexRegion : Region :=
  ⟨4, [],
   [⟨⟨35, 71, .unknown⟩, "testtool", some (mkRat 7 10), []⟩,
    ⟨⟨0, 10, .unknown⟩, "testtool", some (mkRat 1 10), []⟩], []⟩

/-- Fixture region with subregion probabilities null, 0.1 and 0.7. -/
def probRegion : Region :=
  ⟨5, [],
   [⟨⟨0, 10, .unknown⟩, "testtool", none, []⟩,
    ⟨⟨0, 10, .unknown⟩, "testtool", some (mkRat 1 10), []⟩,
    ⟨⟨0, 10, .unknown⟩, "testtool", some (mkRat 7 10), []⟩], []⟩

/-- Fixture region whose only subregion has no probability. -/
def probRegionNone : Region :=
  ⟨6, [], [⟨⟨0, 10, .unknown⟩, "testtool", none, []⟩], []⟩

/-! ### Helper lemmas about spans and envelopes -/

/-- Containment is reflexive. -/
theorem contains_refl (a : FeatureLocation) : a.contains a = true := by
  simp [FeatureLocation.contains]

/-- Containment is transitive. -/
theorem contains_trans {a b c : FeatureLocation} (h1 : a.contains b = true)
    (h2 : b.contains c = true) : a.contains c = true := by
  simp only [FeatureLocation.contains, Bool.and_eq_true, decide_eq_true_eq] at *
  omega

/-- A union span contains its left argument. -/
theorem union_contains_left (a b : FeatureLocation) :
    (a.union b).contains a = true := by
  simp [FeatureLocation.contains, FeatureLocation.union, min_le_left, le_max_left]

/-- A union span contains its right argument. -/
theorem union_contains_right (a b : FeatureLocation) :
    (a.union b).contains b = true := by
  simp [FeatureLocation.contains, FeatureLocation.union, min_le_right, le_max_right]

/-- Span union is commutative. -/
theorem union_comm (a b : FeatureLocation) : a.union b = b.union a := by
  have hs : ∀ x y : Strand, strandUnion x y = strandUnion y x := by
    intro x y; cases x <;> cases y <;> rfl
  simp [FeatureLocation.union, min_comm, max_comm, hs]

/-- Span union is right-commutative. -/
theorem union_right_comm (a b c : FeatureLocation) :
    (a.union b).union c = (a.union c).union b := by
  have hs : ∀ x y z : Strand,
      strandUnion (strandUnion x y) z = strandUnion (strandUnion x z) y := by
    intro x y z; cases x <;> cases y <;> cases z <;> rfl
  simp only [FeatureLocation.union, hs]
  rw [min_right_comm, max_assoc, max_comm b.end_ c.end_, ← max_assoc]

/-- The envelope accumulator is right-commutative. -/
theorem unionOpt_right_comm (b : Option FeatureLocation) (x y : FeatureLocation) :
    unionOpt (unionOpt b x) y = unionOpt (unionOpt b y) x := by
  cases b with
  | none => simp [unionOpt, union_comm x y]
  | some a => simp [unionOpt, union_right_comm]

/-- The optional envelope is invariant under permutation. -/
theorem envelope?_perm {l₁ l₂ : List FeatureLocation} (p : l₁.Perm l₂) :
    envelope? l₁ = envelope? l₂ := by
  unfold envelope?
  exact p.foldl_eq' (fun x _ y _ z => unionOpt_right_comm z x y) none

/-- The envelope is invariant under permutation. -/
theorem envelope_perm {l₁ l₂ : List FeatureLocation} (p : l₁.Perm l₂) :
    envelope l₁ = envelope l₂ := by
  unfold envelope
  rw [envelope?_perm p]

/-- Folding the envelope accumulator from a present accumulator stays present
and the result contains the starting span. -/
theorem foldl_unionOpt_some (l : List FeatureLocation) (a : FeatureLocation) :
    ∃ b, l.foldl unionOpt (some a) = some b ∧ b.contains a = true := by
  induction l generalizing a with
  | nil => exact ⟨a, rfl, contains_refl a⟩
  | cons x xs ih =>
    obtain ⟨b, hb, hc⟩ := ih (a.union x)
    exact ⟨b, hb, contains_trans hc (union_contains_left a x)⟩

/-- Folding the envelope accumulator over a list containing `x` yields a span
containing `x`. -/
theorem foldl_unionOpt_mem {l : List FeatureLocation} {x : FeatureLocation}
    (hx : x ∈ l) (acc : Option FeatureLocation) :
    ∃ b, l.foldl unionOpt acc = some b ∧ b.contains x = true := by
  induction l generalizing acc with
  | nil => cases hx
  | cons y ys ih =>
    rcases List.mem_cons.mp hx with h | h
    · subst h
      cases acc with
      | none =>
        simpa [unionOpt] using foldl_unionOpt_some ys x
      | some a =>
        obtain ⟨b, hb, hc⟩ := foldl_unionOpt_some ys (a.union x)
        exact ⟨b, by simpa [unionOpt] using hb,
               contains_trans hc (union_contains_right a x)⟩
    · exact ih h (unionOpt acc y)

/-- The envelope of a list contains every member span. -/
theorem envelope_contains_mem {l : List FeatureLocation} {x : FeatureLocation}
    (hx : x ∈ l) : (envelope l).contains x = true := by
  obtain ⟨b, hb, hc⟩ := foldl_unionOpt_mem hx none
  unfold envelope envelope?
  rw [hb]
  exact hc

/-! ### Helper lemmas about containment propagation -/

/-- Attaching a sub-annotation never changes a leaf's location. -/
theorem cluster_addCds_location (c : Cluster) (x : CDSFeature) :
    (c.addCds x).location = c.location := by
  unfold Cluster.addCds; split <;> rfl

/-- Attaching a sub-annotation never changes a subregion's location. -/
theorem subregion_addCds_location (sr : SubRegion) (x : CDSFeature) :
    (sr.addCds x).location = sr.location := by
  unfold SubRegion.addCds; split <;> rfl

/-- Attaching a sub-annotation never changes a subregion's probability. -/
theorem subregion_addCds_probability (sr : SubRegion) (x : CDSFeature) :
    (sr.addCds x).probability = sr.probability := by
  unfold SubRegion.addCds; split <;> rfl

/-- Attaching a sub-annotation never changes an aggregation node's kind. -/
theorem super_addCds_kind (sc : SuperCluster) (x : CDSFeature) :
    (sc.addCds x).kind = sc.kind := by
  unfold SuperCluster.addCds; split <;> rfl

/-- An aggregation node's derived location contains each member's location. -/
theorem super_location_contains (sc : SuperCluster) {c : Cluster}
    (hc : c ∈ sc.clusters) : sc.location.contains c.location = true :=
  envelope_contains_mem (List.mem_map_of_mem Cluster.location hc)

/-! ### Claim theorems about containment propagation -/

/-- C1 (amended): for a sub-annotation contained in the region's envelope,
`add_cds` succeeds, sets the back-reference, appends the sub-annotation to
the region exactly once, to every leaf candidate whose own location contains
it, and to every subregion whose location contains it; an aggregation node's
derived children receive it exactly when one of its member leaves contains
it. -/
theorem add_cds_propagation (r : Region) (cds : CDSFeature)
    (h : cds.is_contained_by r = true) :
    ∃ r' c', r.addCds cds = .ok (r', c') ∧
      c'.region = some r.id ∧
      c'.location = cds.location ∧
      r'.cds_children = r.cds_children ++ [c'] ∧
      r'.cds_children.count c' = r.cds_children.count c' + 1 ∧
      (∀ sc' ∈ r'.superclusters, ∀ c ∈ sc'.clusters,
        c.location.contains cds.location = true → c' ∈ c.cds_children) ∧
      (∀ sc' ∈ r'.superclusters,
        (∃ c ∈ sc'.clusters, c.location.contains cds.location = true) →
          c' ∈ sc'.cds_children) ∧
      (∀ sr' ∈ r'.subregions, sr'.location.contains cds.location = true →
        c' ∈ sr'.cds_children) := by
  unfold CDSFeature.is_contained_by at h
  refine ⟨{ r with
      superclusters := r.superclusters.map (SuperCluster.addCds · ⟨cds.location, cds.locus_tag, some r.id⟩),
      subregions := r.subregions.map (SubRegion.addCds · ⟨cds.location, cds.locus_tag, some r.id⟩),
      cds_children := r.cds_children ++ [⟨cds.location, cds.locus_tag, some r.id⟩] },
    ⟨cds.location, cds.locus_tag, some r.id⟩, ?_, rfl, rfl, rfl, ?_, ?_, ?_, ?_⟩
  · simp [Region.addCds, h]
  · simp
  · intro sc' hsc' c hc hcont
    obtain ⟨sc, _hsc, rfl⟩ := List.mem_map.mp hsc'
    by_cases henv : sc.location.contains cds.location = true
    · rw [show SuperCluster.addCds sc ⟨cds.location, cds.locus_tag, some r.id⟩
          = { sc with clusters := sc.clusters.map (Cluster.addCds · ⟨cds.location, cds.locus_tag, some r.id⟩) }
        from by simp [SuperCluster.addCds, henv]] at hc
      obtain ⟨cl, _hcl, rfl⟩ := List.mem_map.mp hc
      rw [cluster_addCds_location] at hcont
      simp [Cluster.addCds, hcont]
    · rw [show SuperCluster.addCds sc ⟨cds.location, cds.locus_tag, some r.id⟩ = sc
          from by simp [SuperCluster.addCds, henv]] at hc
      exact absurd (contains_trans (super_location_contains sc hc) hcont) henv
  · intro sc' hsc' hex
    obtain ⟨sc, _hsc, rfl⟩ := List.mem_map.mp hsc'
    obtain ⟨c, hc, hcont⟩ := hex
    by_cases henv : sc.location.contains cds.location = true
    · rw [show SuperCluster.addCds sc ⟨cds.location, cds.locus_tag, some r.id⟩
          = { sc with clusters := sc.clusters.map (Cluster.addCds · ⟨cds.location, cds.locus_tag, some r.id⟩) }
        from by simp [SuperCluster.addCds, henv]] at hc ⊢
      obtain ⟨cl, hcl, rfl⟩ := List.mem_map.mp hc
      rw [cluster_addCds_location] at hcont
      unfold SuperCluster.cds_children
      rw [List.mem_dedup, List.mem_flatMap]
      refine ⟨Cluster.addCds cl ⟨cds.location, cds.locus_tag, some r.id⟩,
        List.mem_map_of_mem _ hcl, ?_⟩
      simp [Cluster.addCds, hcont]
    · rw [show SuperCluster.addCds sc ⟨cds.location, cds.locus_tag, some r.id⟩ = sc
          from by simp [SuperCluster.addCds, henv]] at hc
      exact absurd (contains_trans (super_location_contains sc hc) hcont) henv
  · intro sr' hsr' hcont
    obtain ⟨sr, _hsr, rfl⟩ := List.mem_map.mp hsr'
    rw [subregion_addCds_location] at hcont
    simp [SubRegion.addCds, hcont]

/-- C1 witness: the propagation theorem applied to the test fixture region
and the 0-10 sub-annotation. -/
theorem add_cds_propagation_witness :
    ∃ r' c', fixRegion.addCds fixCds = .ok (r', c') ∧
      c'.region = some fixRegion.id ∧
      c'.location = fixCds.location ∧
      r'.cds_children = fixRegion.cds_children ++ [c'] ∧
      r'.cds_children.count c' = fixRegion.cds_children.count c' + 1 ∧
      (∀ sc' ∈ r'.superclusters, ∀ c ∈ sc'.clusters,
        c.location.contains fixCds.location = true → c' ∈ c.cds_children) ∧
      (∀ sc' ∈ r'.superclusters,
        (∃ c ∈ sc'.clusters, c.location.contains fixCds.location = true) →
          c' ∈ sc'.cds_children) ∧
      (∀ sr' ∈ r'.subregions, sr'.location.contains fixCds.location = true →
        c' ∈ sr'.cds_children) :=
  add_cds_propagation fixRegion fixCds (by decide)

/-- C1 counterexample: a sub-annotation falling in the gap between the two
leaves of an aggregation node is accepted by the region, the aggregation
node's location contains it, yet it does not appear in the node's derived
cds_children. -/
theorem add_cds_gap_counterexample :
    gapCds.is_contained_by gapRegion = true ∧
    gapRegion.addCds gapCds = .ok (⟨1, [gapSuper], [], [gapCds']⟩, gapCds') ∧
    gapSuper.location.contains gapCds'.location = true ∧
    gapCds' ∉ gapSuper.cds_children :=
  ⟨by decide, rfl, by decide, by decide⟩

/-- C3: `add_cds` with a sub-annotation not contained in the region's derived
envelope fails with a hard error; in this pure model the error carries no new
state, so no child collection changes and no back-reference is set. -/
theorem add_cds_out_of_envelope (r : Region) (cds : CDSFeature)
    (h : cds.is_contained_by r = false) :
    r.addCds cds = .error "AssertionError" := by
  unfold CDSFeature.is_contained_by at h
  simp [Region.addCds, h]

/-- C3 witness: the rejection theorem applied to the fixture region and the
out-of-envelope 50-60 sub-annotation. -/
theorem add_cds_out_of_envelope_witness :
    fixCds50.is_contained_by fixRegion = false ∧
    fixRegion.addCds fixCds50 = .error "AssertionError" :=
  ⟨by decide, add_cds_out_of_envelope fixRegion fixCds50 (by decide)⟩

/-- C7 (amended): once the envelope precondition holds, `add_cds` always
succeeds; every subregion and every leaf candidate whose own location does
not contain the sub-annotation is left completely unchanged, every subregion
and leaf whose location does contain it receives exactly one appended copy,
and the region itself receives exactly one appended copy.  Aggregation nodes
keep their kind and receive the sub-annotation only through their member
leaves. -/
theorem add_cds_frame (r : Region) (cds : CDSFeature)
    (h : cds.is_contained_by r = true) :
    ∃ r' c', r.addCds cds = .ok (r', c') ∧
      List.Forall₂ (fun sr sr' =>
        (sr.location.contains cds.location = false → sr' = sr) ∧
        (sr.location.contains cds.location = true →
          sr'.cds_children = sr.cds_children ++ [c'])) r.subregions r'.subregions ∧
      List.Forall₂ (fun sc sc' => sc'.kind = sc.kind ∧
        List.Forall₂ (fun c c2 =>
          (c.location.contains cds.location = false → c2 = c) ∧
          (c.location.contains cds.location = true →
            c2.cds_children = c.cds_children ++ [c'])) sc.clusters sc'.clusters)
        r.superclusters r'.superclusters ∧
      r'.cds_children = r.cds_children ++ [c'] := by
  unfold CDSFeature.is_contained_by at h
  refine ⟨{ r with
      superclusters := r.superclusters.map (SuperCluster.addCds · ⟨cds.location, cds.locus_tag, some r.id⟩),
      subregions := r.subregions.map (SubRegion.addCds · ⟨cds.location, cds.locus_tag, some r.id⟩),
      cds_children := r.cds_children ++ [⟨cds.location, cds.locus_tag, some r.id⟩] },
    ⟨cds.location, cds.locus_tag, some r.id⟩, ?_, ?_, ?_, rfl⟩
  · simp [Region.addCds, h]
  · rw [List.forall₂_map_right_iff, List.forall₂_same]
    intro sr _hsr
    constructor
    · intro hno
      simp [SubRegion.addCds, hno]
    · intro hyes
      simp [SubRegion.addCds, hyes]
  · rw [List.forall₂_map_right_iff, List.forall₂_same]
    intro sc _hsc
    refine ⟨super_addCds_kind sc _, ?_⟩
    by_cases henv : sc.location.contains cds.location = true
    · rw [show SuperCluster.addCds sc ⟨cds.location, cds.locus_tag, some r.id⟩
          = { sc with clusters := sc.clusters.map (Cluster.addCds · ⟨cds.location, cds.locus_tag, some r.id⟩) }
        from by simp [SuperCluster.addCds, henv]]
      rw [List.forall₂_map_right_iff, List.forall₂_same]
      intro c _hc
      constructor
      · intro hno
        simp [Cluster.addCds, hno]
      · intro hyes
        simp [Cluster.addCds, hyes]
    · rw [show SuperCluster.addCds sc ⟨cds.location, cds.locus_tag, some r.id⟩ = sc
          from by simp [SuperCluster.addCds, henv]]
      rw [List.forall₂_same]
      intro c hc
      constructor
      · intro _hno
        rfl
      · intro hyes
        exact absurd (contains_trans (super_location_contains sc hc) hyes) henv

/-- C7 witness: the frame theorem applied to the test fixture region and the
0-10 sub-annotation. -/
theorem add_cds_frame_witness :
    ∃ r' c', fixRegion.addCds fixCds = .ok (r', c') ∧
      List.Forall₂ (fun sr sr' =>
        (sr.location.contains fixCds.location = false → sr' = sr) ∧
        (sr.location.contains fixCds.location = true →
          sr'.cds_children = sr.cds_children ++ [c'])) fixRegion.subregions r'.subregions ∧
      List.Forall₂ (fun sc sc' => sc'.kind = sc.kind ∧
        List.Forall₂ (fun c c2 =>
          (c.location.contains fixCds.location = false → c2 = c) ∧
          (c.location.contains fixCds.location = true →
            c2.cds_children = c.cds_children ++ [c'])) sc.clusters sc'.clusters)
        fixRegion.superclusters r'.superclusters ∧
      r'.cds_children = fixRegion.cds_children ++ [c'] :=
  add_cds_frame fixRegion fixCds (by decide)

/-- C7 counterexample: the frame region has a child not containing the gap
sub-annotation (the distant subregion), so the claim applies; the aggregation
node child's location does contain the sub-annotation, yet after `add_cds`
the node's derived children do not hold it, refuting attachment to every
containing child. -/
theorem add_cds_frame_counterexample :
    frameCds.is_contained_by frameRegion = true ∧
    frameSubFar.location.contains frameCds.location = false ∧
    frameRegion.addCds frameCds = .ok (⟨2, [frameSuper], [frameSubFar], [frameCds']⟩, frameCds') ∧
    frameSuper.location.contains frameCds'.location = true ∧
    frameSuper.cds_children = [] :=
  ⟨by decide, by decide, rfl, by decide, by decide⟩

/-! ### Claim theorems about construction and immutability -/

/-- C4: region construction fails with a hard error, producing no object,
whenever a child offered as an aggregation node is not one, a child offered
as an independent candidate is not one, or both child collections are
empty. -/
theorem region_construction_errors (n : Nat) (scs srs : List RegionChild)
    (h : scs.all RegionChild.isSuper = false ∨ srs.all RegionChild.isSub = false ∨
         (scs = [] ∧ srs = [])) :
    ∃ e, mkRegion n scs srs = .error e := by
  unfold mkRegion
  rcases h with h | h | ⟨h1, h2⟩
  · simp [h]
  · by_cases h1 : scs.all RegionChild.isSuper = true
    · simp [h1, h]
    · simp [Bool.not_eq_true] at h1
      simp [h1]
  · subst h1; subst h2; simp

/-- C4 witness: the construction theorem applied to a subregion offered as a
supercluster, a supercluster offered as a subregion, and two empty child
collections. -/
theorem region_construction_errors_witness :
    (∃ e, mkRegion 0 [RegionChild.subR fixSub] [] = .error e) ∧
    (∃ e, mkRegion 0 [] [RegionChild.superC fixSuper] = .error e) ∧
    (∃ e, mkRegion 0 [] [] = .error e) :=
  ⟨region_construction_errors 0 _ _ (Or.inl (by decide)),
   region_construction_errors 0 _ _ (Or.inr (Or.inl (by decide))),
   region_construction_errors 0 _ _ (Or.inr (Or.inr ⟨rfl, rfl⟩))⟩

/-- C8: any attempted assignment of `superclusters`, `subregions` or of
`cds_children` as a whole collection fails with an AttributeError, and the
only growth path, `add_cds`, keeps both fixed collections at their size and
only appends one element to `cds_children`. -/
theorem region_children_immutable :
    (∀ (r : Region) (a : RegionAttr),
      Region.setAttr r a = .error "AttributeError: cannot set attribute") ∧
    (∀ (r : Region) (cds : CDSFeature) (r' : Region) (c' : CDSFeature),
      r.addCds cds = .ok (r', c') →
        r'.superclusters.length = r.superclusters.length ∧
        r'.subregions.length = r.subregions.length ∧
        r'.cds_children = r.cds_children ++ [c']) := by
  constructor
  · intro r a
    rfl
  · intro r cds r' c' h
    unfold Region.addCds at h
    split at h
    · simp only [Except.ok.injEq, Prod.mk.injEq] at h
      obtain ⟨h1, h2⟩ := h
      subst h1
      subst h2
      simp
    · exact Except.noConfusion h

/-- C8 witness: the immutability theorem applied to the fixture region, with
the `add_cds` part instantiated at the accepted 0-10 sub-annotation. -/
theorem region_children_immutable_witness :
    Region.setAttr fixRegion .superclustersAttr
      = .error "AttributeError: cannot set attribute" ∧
    ∃ r' c', fixRegion.addCds fixCds = .ok (r', c') ∧
      r'.superclusters.length = fixRegion.superclusters.length ∧
      r'.subregions.length = fixRegion.subregions.length ∧
      r'.cds_children = fixRegion.cds_children ++ [c'] := by
  refine ⟨region_children_immutable.1 fixRegion .superclustersAttr, _, _, rfl, ?_⟩
  exact region_children_immutable.2 fixRegion fixCds _ _ rfl

/-! ### Claim theorems about the derived views -/

/-- C5: the derived products are sorted without duplicates, hold exactly the
product labels of the leaf candidates reachable through the superclusters,
and are unaffected by the subregions. -/
theorem region_products_spec (r : Region) :
    List.Sorted (· ≤ ·) r.products ∧
    r.products.Nodup ∧
    (∀ s : String, s ∈ r.products ↔
      ∃ sc ∈ r.superclusters, ∃ c ∈ sc.clusters, c.product = s) ∧
    (∀ subs : List SubRegion, Region.products { r with subregions := subs } = r.products) := by
  refine ⟨List.sorted_insertionSort _ _, ?_, ?_, fun _ => rfl⟩
  · exact (List.perm_insertionSort _ _).nodup_iff.mpr (List.nodup_dedup _)
  · intro s
    simp only [Region.products, List.mem_insertionSort, List.mem_dedup, List.mem_map,
      List.mem_flatMap]
    constructor
    · rintro ⟨c, ⟨sc, hsc, hc⟩, rfl⟩
      exact ⟨sc, hsc, c, hc, rfl⟩
    · rintro ⟨sc, hsc, c, hc, rfl⟩
      exact ⟨c, ⟨sc, hsc, hc⟩, rfl⟩

/-- Mapping `some` over the kept probabilities is the same as filtering the
present ones, which shows order preservation and that nothing is defaulted. -/
theorem map_some_filterMap_probability (l : List SubRegion) :
    (l.filterMap SubRegion.probability).map Option.some
      = (l.map SubRegion.probability).filter Option.isSome := by
  induction l with
  | nil => rfl
  | cons x xs ih =>
    cases hx : x.probability <;>
      simp [List.filterMap_cons, List.filter_cons, hx, ih]

/-- C6: the derived probabilities are exactly the present probabilities of
the subregions in subregion order, nulls excluded rather than defaulted; a
region with no subregions, or whose subregions all lack a probability,
yields the empty sequence. -/
theorem region_probabilities_spec (r : Region) :
    r.probabilities.map Option.some
      = (r.subregions.map SubRegion.probability).filter Option.isSome ∧
    ((∀ sr ∈ r.subregions, sr.probability = none) → r.probabilities = []) ∧
    (r.subregions = [] → r.probabilities = []) := by
  refine ⟨map_some_filterMap_probability r.subregions, ?_, ?_⟩
  · intro h
    unfold Region.probabilities
    exact List.filterMap_eq_nil_iff.mpr h
  · intro h
    unfold Region.probabilities
    rw [h]
    rfl

/-- C6 witness: the probabilities theorem applied to the fixture regions
with probabilities null, 0.1, 0.7 and with a single null probability, plus
the evaluated sequence 0.1, 0.7 on the former. -/
theorem region_probabilities_spec_witness :
    probRegion.probabilities.map Option.some
      = (probRegion.subregions.map SubRegion.probability).filter Option.isSome ∧
    probRegionNone.probabilities = [] ∧
    probRegion.probabilities = [mkRat 1 10, mkRat 7 10] :=
  ⟨(region_probabilities_spec probRegion).1,
   (region_probabilities_spec probRegionNone).2.1 (by decide),
   by decide⟩

/-! ### Claim theorems about the prodigal collaborator -/

/-- C9: at the failing input, a header line with fewer than four
underscore-separated fields, `run_prodigal` raises the uncaught ValueError
from tuple unpacking instead of logging and skipping; a four-field line with
a non-integer field is logged and skipped producing no feature, and a tool
error string yields an early return with no features. -/
theorem run_prodigal_malformed_line_crash :
    run_prodigal [] [['>', 'g', 'e', 'n', 'e', '_', '5']] 0 = .error "ValueError" ∧
    run_prodigal [] [['>', 'a', '_', 'b', '_', 'c', '_', '+']] 0 = .ok [] ∧
    run_prodigal ['E', 'r', 'r', 'o', 'r'] [['>', 'g', 'e', 'n', 'e', '_', '5']] 0 = .ok [] :=
  ⟨rfl, rfl, rfl⟩

/-- C10: every accepted prodigal output line produces the feature built by
`mkProdigalFeature`, whose location is the 0-based half-open span
`(min(start, end) - 1, max(start, end))` with end strictly greater than
start; whenever the reported start exceeds the reported end the strand is
forced to -1 regardless of the strand symbol, and any symbol other than `+`
maps to -1. -/
theorem prodigal_accepted_line_feature (recordIdx : Nat)
    (rest name s e sym : List Char) (st en : Int)
    (hsplit : splitUnderscore (trimRightChars rest) = [name, s, e, sym])
    (hs : parseInt? s = some st) (he : parseInt? e = some en) :
    parseProdigalLine recordIdx ('>' :: rest)
      = .ok (some (mkProdigalFeature recordIdx name st en sym)) ∧
    (mkProdigalFeature recordIdx name st en sym).start = min st en - 1 ∧
    (mkProdigalFeature recordIdx name st en sym).end_ = max st en ∧
    (mkProdigalFeature recordIdx name st en sym).start
      < (mkProdigalFeature recordIdx name st en sym).end_ ∧
    (st > en → (mkProdigalFeature recordIdx name st en sym).strand = -1) ∧
    (sym ≠ ['+'] → (mkProdigalFeature recordIdx name st en sym).strand = -1) ∧
    (st ≤ en → sym = ['+'] → (mkProdigalFeature recordIdx name st en sym).strand = 1) := by
  refine ⟨?_, ?_, ?_, ?_, ?_, ?_, ?_⟩
  · simp [parseProdigalLine, hsplit, hs, he]
  · simp only [mkProdigalFeature, min_def]
    split_ifs <;> omega
  · simp only [mkProdigalFeature, max_def]
    split_ifs <;> omega
  · simp only [mkProdigalFeature]
    split_ifs <;> omega
  · intro hgt
    simp [mkProdigalFeature, hgt]
  · intro hsym
    simp only [mkProdigalFeature, hsym, if_false]
    split_ifs <;> rfl
  · intro hle hsym
    simp [mkProdigalFeature, hsym, show ¬(st > en) from by omega]

/-- C10 witness: the accepted-line theorem applied to the concrete header
line `>gene_10_2_+`, whose reported start 10 exceeds its reported end 2. -/
theorem prodigal_accepted_line_feature_witness :
    parseProdigalLine 0 ('>' :: ['g', 'e', 'n', 'e', '_', '1', '0', '_', '2', '_', '+'])
      = .ok (some (mkProdigalFeature 0 ['g', 'e', 'n', 'e'] 10 2 ['+'])) ∧
    (mkProdigalFeature 0 ['g', 'e', 'n', 'e'] 10 2 ['+']).start = min (10 : Int) 2 - 1 ∧
    (mkProdigalFeature 0 ['g', 'e', 'n', 'e'] 10 2 ['+']).end_ = max (10 : Int) 2 ∧
    (mkProdigalFeature 0 ['g', 'e', 'n', 'e'] 10 2 ['+']).start
      < (mkProdigalFeature 0 ['g', 'e', 'n', 'e'] 10 2 ['+']).end_ ∧
    ((10 : Int) > 2 → (mkProdigalFeature 0 ['g', 'e', 'n', 'e'] 10 2 ['+']).strand = -1) ∧
    (['+'] ≠ ['+'] → (mkProdigalFeature 0 ['g', 'e', 'n', 'e'] 10 2 ['+']).strand = -1) ∧
    ((10 : Int) ≤ 2 → ['+'] = ['+'] →
      (mkProdigalFeature 0 ['g', 'e', 'n', 'e'] 10 2 ['+']).strand = 1) :=
  prodigal_accepted_line_feature 0
    ['g', 'e', 'n', 'e', '_', '1', '0', '_', '2', '_', '+']
    ['g', 'e', 'n', 'e'] ['1', '0'] ['2'] ['+'] 10 2 rfl rfl rfl

/-! ### Helper lemmas about translation and the codec -/

/-- Translation preserves span validity. -/
theorem translate_valid (a : FeatureLocation) (off : Int) :
    (a.translate off).valid = a.valid := by
  simp only [FeatureLocation.valid, FeatureLocation.translate]
  exact decide_eq_decide.mpr (by omega)

/-- Translation commutes with span union. -/
theorem union_translate (a b : FeatureLocation) (off : Int) :
    (a.translate off).union (b.translate off) = (a.union b).translate off := by
  simp only [FeatureLocation.union, FeatureLocation.translate]
  rw [min_sub_sub_right, max_sub_sub_right]

/-- Translation commutes with the envelope accumulator step. -/
theorem unionOpt_translate (acc : Option FeatureLocation) (x : FeatureLocation)
    (off : Int) :
    unionOpt (acc.map (FeatureLocation.translate · off)) (x.translate off)
      = (unionOpt acc x).map (FeatureLocation.translate · off) := by
  cases acc with
  | none => rfl
  | some a => simp [unionOpt, union_translate]

/-- Translation commutes with the envelope fold. -/
theorem foldl_unionOpt_translate (l : List FeatureLocation) (off : Int)
    (acc : Option FeatureLocation) :
    (l.map (FeatureLocation.translate · off)).foldl unionOpt
        (acc.map (FeatureLocation.translate · off))
      = (l.foldl unionOpt acc).map (FeatureLocation.translate · off) := by
  induction l generalizing acc with
  | nil => rfl
  | cons x xs ih =>
    simp only [List.map_cons, List.foldl_cons]
    rw [unionOpt_translate, ih]

/-- Translation commutes with the optional envelope. -/
theorem envelope?_translate (l : List FeatureLocation) (off : Int) :
    envelope? (l.map (FeatureLocation.translate · off))
      = (envelope? l).map (FeatureLocation.translate · off) :=
  foldl_unionOpt_translate l off none

/-- The optional envelope of a non-empty list is present. -/
theorem envelope?_isSome {l : List FeatureLocation} (hl : l ≠ []) :
    ∃ b, envelope? l = some b := by
  cases l with
  | nil => exact absurd rfl hl
  | cons x xs =>
    obtain ⟨b, hb, -⟩ := foldl_unionOpt_mem (List.mem_cons_self x xs) none
    exact ⟨b, hb⟩

/-- Translation commutes with the envelope of a non-empty list. -/
theorem envelope_translate {l : List FeatureLocation} (off : Int) (hl : l ≠ []) :
    envelope (l.map (FeatureLocation.translate · off)) = (envelope l).translate off := by
  obtain ⟨b, hb⟩ := envelope?_isSome hl
  unfold envelope
  rw [envelope?_translate, hb]
  rfl

/-- Permutations preserve `List.all`. -/
theorem perm_all_eq {l1 l2 : List α} (p : l1.Perm l2) (f : α → Bool) :
    l1.all f = l2.all f := by
  rw [Bool.eq_iff_iff]
  simp only [List.all_eq_true]
  exact ⟨fun h x hx => h x (p.mem_iff.mpr hx), fun h x hx => h x (p.mem_iff.mp hx)⟩

/-- Permutations preserve emptiness. -/
theorem perm_isEmpty_eq {l1 l2 : List α} (p : l1.Perm l2) :
    l1.isEmpty = l2.isEmpty := by
  have := p.length_eq
  cases l1 <;> cases l2 <;> simp_all

/-- Mapping preserves emptiness. -/
theorem map_isEmpty_eq (f : α → β) (l : List α) : (l.map f).isEmpty = l.isEmpty := by
  cases l <;> rfl

/-- `List.all` over a mapped list tests the composition. -/
theorem all_map_comp (l : List α) (f : α → β) (p : β → Bool) :
    (l.map f).all p = l.all (p ∘ f) := by
  induction l with
  | nil => rfl
  | cons x xs ih => simp [ih, Function.comp]

/-- The format validation of a written record succeeds exactly for
well-formed regions. -/
theorem validSpans_writeRegion (r : Region) (off : Int) :
    (writeRegion r off).validSpans = r.WF := by
  unfold GBRecord.validSpans writeRegion Region.WF
  simp only []
  have hsup : (List.insertionSort superEncLe
      (r.superclusters.map fun sc =>
        (sc.kind, List.insertionSort clusterLe (sc.clusters.map (encodeCluster off))))).all
      (fun p => !p.2.isEmpty && p.2.all fun c =>
        c.location.valid && c.neighbourhood_location.valid)
      = r.superclusters.all (fun sc => !sc.clusters.isEmpty && sc.clusters.all fun c =>
          c.location.valid && c.neighbourhood_location.valid) := by
    rw [perm_all_eq (List.perm_insertionSort _ _), all_map_comp]
    apply congrArg
    funext sc
    simp only [Function.comp]
    rw [perm_isEmpty_eq (List.perm_insertionSort _ _), map_isEmpty_eq,
        perm_all_eq (List.perm_insertionSort _ _), all_map_comp]
    have henc : (fun c : Cluster => ((encodeCluster off c).location.valid &&
        (encodeCluster off c).neighbourhood_location.valid))
        = (fun c => c.location.valid && c.neighbourhood_location.valid) := by
      funext c
      show ((c.location.translate off).valid && (c.neighbourhood_location.translate off).valid) = _
      rw [translate_valid, translate_valid]
    show (!sc.clusters.isEmpty && sc.clusters.all ((fun c : Cluster =>
        ((encodeCluster off c).location.valid && (encodeCluster off c).neighbourhood_location.valid)))) = _
    rw [henc]
  have hsub : (List.insertionSort subLe (r.subregions.map (encodeSub off))).all
      (fun s => s.location.valid) = r.subregions.all (fun s => s.location.valid) := by
    rw [perm_all_eq (List.perm_insertionSort _ _), all_map_comp]
    apply congrArg
    funext s
    show (s.location.translate off).valid = _
    rw [translate_valid]
  have hcds : (List.insertionSort cdsEncLe
      (r.cds_children.map fun c => (c.location.translate off, c.locus_tag))).all
      (fun p => p.1.valid) = r.cds_children.all (fun c => c.location.valid) := by
    rw [perm_all_eq (List.perm_insertionSort _ _), all_map_comp]
    apply congrArg
    funext c
    show (c.location.translate off).valid = _
    rw [translate_valid]
  have hes : (List.insertionSort superEncLe
      (r.superclusters.map fun sc =>
        (sc.kind, List.insertionSort clusterLe (sc.clusters.map (encodeCluster off))))).isEmpty
      = r.superclusters.isEmpty := by
    rw [perm_isEmpty_eq (List.perm_insertionSort _ _), map_isEmpty_eq]
  have heb : (List.insertionSort subLe (r.subregions.map (encodeSub off))).isEmpty
      = r.subregions.isEmpty := by
    rw [perm_isEmpty_eq (List.perm_insertionSort _ _), map_isEmpty_eq]
  rw [hsup, hsub, hcds, hes, heb]
  cases r.superclusters.all (fun sc => !sc.clusters.isEmpty && sc.clusters.all fun c =>
      c.location.valid && c.neighbourhood_location.valid) <;>
    cases r.subregions.all (fun s => s.location.valid) <;>
    cases r.cds_children.all (fun c => c.location.valid) <;>
    cases r.superclusters.isEmpty <;>
    cases r.subregions.isEmpty <;> rfl

/-- The reparsed aggregation nodes of a written record are a permutation of
the originals with sorted, translated members. -/
theorem write_supers_perm (r : Region) (off : Int) :
    ((writeRegion r off).supers.map
        (fun p => (⟨p.1, p.2⟩ : SuperCluster))).Perm
      (r.superclusters.map fun sc =>
        (⟨sc.kind, List.insertionSort clusterLe
          (sc.clusters.map (encodeCluster off))⟩ : SuperCluster)) := by
  have h0 := (List.perm_insertionSort superEncLe
    (r.superclusters.map fun sc =>
      (sc.kind, List.insertionSort clusterLe (sc.clusters.map (encodeCluster off))))).map
    (fun p : SuperClusterKind × List Cluster => (⟨p.1, p.2⟩ : SuperCluster))
  rw [List.map_map] at h0
  exact h0

/-- The leaf product labels of a written record are a permutation of the
original region's. -/
theorem write_products_perm (r : Region) (off : Int) :
    ((((writeRegion r off).supers.map (fun p => (⟨p.1, p.2⟩ : SuperCluster))).flatMap
        SuperCluster.clusters).map Cluster.product).Perm
      ((r.superclusters.flatMap SuperCluster.clusters).map Cluster.product) := by
  refine (((write_supers_perm r off).flatMap_right SuperCluster.clusters).map
    Cluster.product).trans ?_
  rw [List.flatMap_map, List.map_flatMap, List.map_flatMap]
  apply List.Perm.flatMap_left
  intro sc _
  have h2 := (List.perm_insertionSort clusterLe
    (sc.clusters.map (encodeCluster off))).map Cluster.product
  rw [List.map_map] at h2
  exact h2

/-- Reparsing a written record reconstructs the original products. -/
theorem products_roundtrip (r : Region) (off : Int) :
    Region.products ⟨0,
        (writeRegion r off).supers.map (fun p => ⟨p.1, p.2⟩),
        (writeRegion r off).subs,
        (writeRegion r off).cdss.map
          (fun p => { location := p.1, locus_tag := p.2, region := none })⟩
      = r.products := by
  unfold Region.products
  exact List.eq_of_perm_of_sorted
    (((List.perm_insertionSort _ _).trans ((write_products_perm r off).dedup)).trans
      (List.perm_insertionSort _ _).symm)
    (List.sorted_insertionSort _ _) (List.sorted_insertionSort _ _)

/-- Reparsing a written record reconstructs the original probabilities when
the subregions were already in ascending start order. -/
theorem probabilities_roundtrip (r : Region) (off : Int)
    (hsorted : List.Sorted subLe r.subregions) :
    Region.probabilities ⟨0,
        (writeRegion r off).supers.map (fun p => ⟨p.1, p.2⟩),
        (writeRegion r off).subs,
        (writeRegion r off).cdss.map
          (fun p => { location := p.1, locus_tag := p.2, region := none })⟩
      = r.probabilities := by
  unfold Region.probabilities
  show (List.insertionSort subLe
      (r.subregions.map (encodeSub off))).filterMap SubRegion.probability = _
  have hmap : List.Sorted subLe (r.subregions.map (encodeSub off)) :=
    List.Pairwise.map (encodeSub off)
      (fun a b h => by
        simp only [subLe, encodeSub, FeatureLocation.translate] at h ⊢
        omega)
      hsorted
  rw [List.Sorted.insertionSort_eq hmap, List.filterMap_map]
  rfl

/-- Reparsing a written record reconstructs the original envelope, translated
by the record start offset. -/
theorem location_roundtrip (r : Region) (off : Int) (hwf : r.WF = true) :
    Region.location ⟨0,
        (writeRegion r off).supers.map (fun p => ⟨p.1, p.2⟩),
        (writeRegion r off).subs,
        (writeRegion r off).cdss.map
          (fun p => { location := p.1, locus_tag := p.2, region := none })⟩
      = r.location.translate off := by
  have h1 := hwf
  unfold Region.WF at h1
  rw [Bool.and_eq_true, Bool.and_eq_true, Bool.and_eq_true] at h1
  obtain ⟨⟨⟨hne, hsup⟩, -⟩, -⟩ := h1
  have hclusters : ∀ sc ∈ r.superclusters, sc.clusters ≠ [] := by
    intro sc hsc hnil
    have := List.all_eq_true.mp hsup sc hsc
    rw [Bool.and_eq_true] at this
    rw [hnil] at this
    exact absurd this.1 (by decide)
  have hchild : r.childLocations ≠ [] := by
    intro hcl
    unfold Region.childLocations at hcl
    rw [List.append_eq_nil] at hcl
    obtain ⟨ha, hb⟩ := hcl
    rw [List.map_eq_nil_iff] at ha hb
    rw [ha, hb] at hne
    exact absurd hne (by decide)
  have hA : (((writeRegion r off).supers.map
      (fun p => (⟨p.1, p.2⟩ : SuperCluster))).map SuperCluster.location).Perm
      (r.superclusters.map fun sc => sc.location.translate off) := by
    refine ((write_supers_perm r off).map SuperCluster.location).trans ?_
    rw [List.map_map]
    rw [List.map_congr_left (g := fun sc : SuperCluster => sc.location.translate off)
      (fun sc hsc => ?_)]
    show SuperCluster.location ⟨sc.kind,
        List.insertionSort clusterLe (sc.clusters.map (encodeCluster off))⟩
      = sc.location.translate off
    unfold SuperCluster.location
    rw [envelope_perm ((List.perm_insertionSort clusterLe
      (sc.clusters.map (encodeCluster off))).map Cluster.location)]
    rw [List.map_map]
    show envelope (sc.clusters.map fun c => c.location.translate off) = _
    rw [show (fun c : Cluster => c.location.translate off)
        = ((FeatureLocation.translate · off) ∘ Cluster.location) from rfl,
      ← List.map_map]
    exact envelope_translate off
      (fun h => hclusters sc hsc (List.map_eq_nil_iff.mp h))
  have hB : (((writeRegion r off).subs).map SubRegion.location).Perm
      (r.subregions.map fun s => s.location.translate off) := by
    have h0 := (List.perm_insertionSort subLe
      (r.subregions.map (encodeSub off))).map SubRegion.location
    rw [List.map_map] at h0
    exact h0
  have hsplit : (r.superclusters.map fun sc => sc.location.translate off)
      ++ (r.subregions.map fun s => s.location.translate off)
      = r.childLocations.map (FeatureLocation.translate · off) := by
    unfold Region.childLocations
    rw [List.map_append, List.map_map, List.map_map]
    rfl
  show envelope ((((writeRegion r off).supers.map
      (fun p => (⟨p.1, p.2⟩ : SuperCluster))).map SuperCluster.location)
      ++ (((writeRegion r off).subs).map SubRegion.location)) = _
  rw [envelope_perm (hA.append hB), hsplit]
  exact envelope_translate off hchild

/-! ### Claim theorems about the flat-file codec round trip -/

/-- C2 (amended): for every well-formed region written at a record start
offset, parsing the record back succeeds and yields a region whose products
equal the original's, whose location is the original's translated by the
offset, and, provided the subregions were listed in ascending start order
(the codec writes sibling features sorted by translated start, so parse
returns them in that order), whose probabilities equal the original's. -/
theorem genbank_roundtrip (r : Region) (off : Int) (hwf : r.WF = true)
    (hsorted : List.Sorted subLe r.subregions) :
    ∃ r', parseRegion (writeRegion r off) = .ok r' ∧
      r'.products = r.products ∧
      r'.probabilities = r.probabilities ∧
      r'.location = r.location.translate off := by
  refine ⟨⟨0,
      (writeRegion r off).supers.map (fun p => ⟨p.1, p.2⟩),
      (writeRegion r off).subs,
      (writeRegion r off).cdss.map
        (fun p => { location := p.1, locus_tag := p.2, region := none })⟩,
    ?_, products_roundtrip r off, probabilities_roundtrip r off hsorted,
    location_roundtrip r off hwf⟩
  unfold parseRegion
  rw [validSpans_writeRegion, hwf]
  rfl

/-- C2 witness: the round-trip theorem applied to the round-trip test
fixture, two leaves under one NEIGHBOURING aggregation node plus a subregion
with probability 0.7, written at the region's own start offset 3. -/
theorem genbank_roundtrip_witness :
    ∃ r', parseRegion (writeRegion wRegion 3) = .ok r' ∧
      r'.products = wRegion.products ∧
      r'.probabilities = wRegion.probabilities ∧
      r'.location = wRegion.location.translate 3 :=
  genbank_roundtrip wRegion 3 (by decide) (by decide)

/-- C2 counterexample: a region whose two subregions are listed in
descending start order round-trips to probabilities in ascending start
order, so the parsed probabilities differ from the original's. -/
theorem genbank_roundtrip_counterexample :
    cexRegion.WF = true ∧
    parseRegion (writeRegion cexRegion 0) = .ok ⟨0, [],
      [⟨⟨0, 10, .unknown⟩, "testtool", some (mkRat 1 10), []⟩,
       ⟨⟨35, 71, .unknown⟩, "testtool", some (mkRat 7 10), []⟩], []⟩ ∧
    Region.probabilities ⟨0, [],
      [⟨⟨0, 10, .unknown⟩, "testtool", some (mkRat 1 10), []⟩,
       ⟨⟨35, 71, .unknown⟩, "testtool", some (mkRat 7 10), []⟩], []⟩
      ≠ cexRegion.probabilities :=
  ⟨by decide, rfl, by decide⟩
